import Mathlib

/-!
Shallow embedding of the cross-validation core of the parallel decision tree
repository (`src/cv.cpp`, `src/cv.hpp`) together with the pieces of its data
model that the cross-validator touches.  Only `cv.cpp`/`cv.hpp` and the
benchmark drivers are present in the repository snapshot; the data container
(`datasets.cpp`), the metric (`metrics.cpp`) and the decision tree engine
(`decision_tree.cpp`) are modelled from the specification, as noted on each
such definition.
-/

/-- A row of the tabular data container: a fixed-length sequence of numeric
values, embedded as a list of rationals (C++ doubles carry exact decimal
data in this code base's usage; the embedding uses exact arithmetic). -/
abbrev Row : Type := List ℚ

/-- Tabular data container (`DataFrame` of `datasets.hpp`): an ordered
sequence of rows. -/
structure DataFrame where
  rows : List Row
deriving DecidableEq

/-- `DataFrame::length()`: the number of rows. -/
def DataFrame.length (df : DataFrame) : ℕ := df.rows.length

/-- `DataFrame::row(i)`: the i-th row (rows are only ever requested in
bounds by `createKFolds`; out of bounds yields the empty row). -/
def DataFrame.row (df : DataFrame) (i : ℕ) : Row := df.rows.getD i []

/-- `DataFrame::addRow(r)`: append a row at the end. -/
def DataFrame.addRow (df : DataFrame) (r : Row) : DataFrame := ⟨df.rows ++ [r]⟩

/-- Modelled from the spec: `datasets.cpp` is not under `src/`.
`col(-1)` returns the designated label column, by convention the last
column of each row (spec section 3: "one designated column (by convention
the last) is the label"); a non-negative argument selects that column. -/
def DataFrame.col (df : DataFrame) (j : ℤ) : List ℚ :=
  if j = -1 then df.rows.map (fun r => r.getD (r.length - 1) 0)
  else df.rows.map (fun r => r.getD j.toNat 0)

/-- Modelled from the spec: a seeded pseudo-random step ("seeded PRNG",
spec section 4.4); a standard linear congruential generator. -/
def lcg (s : ℕ) : ℕ := (1103515245 * s + 12345) % 2 ^ 31

/-- Modelled from the spec: the recursive worker of the seeded full shuffle
("Fisher–Yates or equivalent, seeded PRNG, full permutation", spec section
4.4).  At each step a pseudo-random index is drawn and that element is moved
to the front of the remaining suffix; the fuel argument equals the length of
the list being shuffled. -/
def shuffleGo (seed : ℕ) : ℕ → List Row → List Row
  | 0, _ => []
  | _ + 1, [] => []
  | n + 1, a :: as =>
      let s := lcg seed
      let j := s % (a :: as).length
      (a :: as).get ⟨j, Nat.mod_lt _ (Nat.succ_pos _)⟩ ::
        shuffleGo s n ((a :: as).eraseIdx j)

/-- Modelled from the spec: the seeded deterministic full shuffle used by
fold construction. -/
def fisherYates (seed : ℕ) (l : List Row) : List Row := shuffleGo seed l.length l

/-- Modelled from the spec: `datasets.cpp` is not under `src/`.
`DataFrame::sample(count, seed, replace)` is invoked by the cross-validator
only as `sample(-1, seed, false)`, meaning "sample all rows without
replacement", i.e. a deterministic seeded full shuffle of the dataset
(spec section 4.4); the model implements exactly that mode. -/
def DataFrame.sample (df : DataFrame) (_count : ℤ) (seed : ℤ) (_replace : Bool) :
    DataFrame := ⟨fisherYates seed.toNat df.rows⟩

/-- Modelled from the spec: `metrics.cpp` is not under `src/`.
`accuracy(true_labels, predictions)` is the fraction of positions where the
two sequences match exactly (spec section 4.3).  The `LengthMismatch`
failure branch is not modelled: the decision tree engine returns one
prediction per row (spec section 4.1), so the sequences compared by the
cross-validator always have equal length. -/
def accuracy (true_labels predictions : List ℚ) : ℚ :=
  (List.zipWith (fun a b => if a = b then (1 : ℚ) else 0) true_labels predictions).sum
    / true_labels.length

/-- `HyperparameterSet` of `cv.hpp`: the hyperparameters exposed to the
cross-validator, with C++ default arguments `(5, 1, "gini_impurity")`. -/
structure HyperparameterSet where
  max_depth : ℤ
  min_obs : ℤ
  loss : String
deriving DecidableEq

/-- The C++ default-argument construction `HyperparameterSet()`. -/
def HyperparameterSet.default : HyperparameterSet := ⟨5, 1, "gini_impurity"⟩

/-- `CVResult` of `cv.hpp`: the cross-validation result record.  The
standard deviation field is real-valued because the code computes a square
root. -/
structure CVResult where
  dataset : String
  max_depth : ℤ
  cv_time_ms : ℚ
  mean_cv_accuracy : ℚ
  std_cv_accuracy : ℝ
  fold_scores : List ℚ

/-- The cross-validator's state (`cv.hpp`): dataset, fold count, seed and
task type, with the C++ member names. -/
structure CrossValidator where
  data_ : DataFrame
  k_folds_ : ℤ
  random_seed_ : ℤ
  regression_ : Bool
deriving DecidableEq

/-- The error named by the spec for a bad fold count (spec section 7); the
constructor's `assert(k_folds > 1); assert(data.length() >= k_folds)` is
embedded as failing with this error. -/
inductive CVError where
  | InvalidFoldCount
deriving DecidableEq

/-- `CrossValidator::CrossValidator(data, k_folds, seed, regression)`:
asserts `k_folds > 1` and `data.length() >= k_folds`, then stores the four
arguments unchanged in the member fields. -/
def CrossValidator.make (data : DataFrame) (k_folds : ℤ) (seed : ℤ)
    (regression : Bool) : Except CVError CrossValidator :=
  if 1 < k_folds then
    if k_folds ≤ (data.length : ℤ) then
      Except.ok ⟨data, k_folds, seed, regression⟩
    else Except.error CVError.InvalidFoldCount
  else Except.error CVError.InvalidFoldCount

/-- The start index of fold `fold`'s validation block, exactly as computed
by the inner loop of `CrossValidator::createKFolds`:
`for (i = 0; i < fold; i++) start_idx += fold_size + (i < remainder ? 1 : 0)`. -/
def startIdx (fold_size remainder fold : ℕ) : ℕ :=
  (List.range fold).foldl
    (fun acc i => acc + (fold_size + if i < remainder then 1 else 0)) 0

/-- `CrossValidator::createKFolds(data, k, seed)`: shuffle the data with the
seed, then build `k` (training, validation) pairs; fold `fold`'s validation
set is the contiguous block of `fold_size + (fold < remainder ? 1 : 0)` rows
beginning at its start index, and its training set is every other row, in
order.  The loops appending rows via `addRow` are embedded as folds over
index ranges. -/
def createKFolds (data : DataFrame) (k : ℤ) (seed : ℤ) :
    List (DataFrame × DataFrame) :=
  let shuffled_data := data.sample (-1) seed false
  let fold_size := shuffled_data.length / k.toNat
  let remainder := shuffled_data.length % k.toNat
  (List.range k.toNat).foldl
    (fun folds fold =>
      let current_fold_size := fold_size + (if fold < remainder then 1 else 0)
      let start_idx := startIdx fold_size remainder fold
      let end_idx := start_idx + current_fold_size
      let validation_data :=
        (List.range' start_idx current_fold_size).foldl
          (fun df i => df.addRow (shuffled_data.row i)) ⟨[]⟩
      let training_data :=
        (List.range shuffled_data.length).foldl
          (fun df i =>
            if i < start_idx ∨ end_idx ≤ i then df.addRow (shuffled_data.row i)
            else df) ⟨[]⟩
      folds ++ [(training_data, validation_data)])
    []

/-- The size of fold `i`'s validation block for an `n`-row dataset split
into `k` folds: `⌊n/k⌋` plus one extra row for the first `n mod k` folds. -/
def blockSize (n k i : ℕ) : ℕ := n / k + if i < n % k then 1 else 0

/-- The start of fold `i`'s validation block, via the code's start-index
loop applied to the quotient and remainder of `n / k`. -/
def blockStart (n k i : ℕ) : ℕ := startIdx (n / k) (n % k) i

/-- `CrossValidator::calculateMeanStd(scores)`: empty input yields `(0,0)`;
otherwise the mean is the loop-accumulated sum divided by the count and the
standard deviation is the square root of the loop-accumulated sum of squared
deviations divided by the count (population form). -/
noncomputable def calculateMeanStd (scores : List ℚ) : ℚ × ℝ :=
  if scores.isEmpty then (0, 0)
  else
    let sum : ℚ := scores.foldl (fun acc s => acc + s) 0
    let mean : ℚ := sum / scores.length
    let variance_sum : ℚ :=
      scores.foldl (fun acc s => acc + (s - mean) * (s - mean)) 0
    (mean, Real.sqrt ((variance_sum / scores.length : ℚ) : ℝ))

/-- Modelled from the spec: `decision_tree.cpp` is not under `src/`.  The
Decision Tree Engine is deterministic — "for fixed (data, hyperparams.seed)
the resulting tree is bit-identical across runs and across thread counts"
(spec section 4.2 Determinism) — so training a tree and predicting with it
is a pure function of the constructor arguments
`(train_data, regression, loss, mtry, max_height, max_leaves, min_obs,
max_prop, seed)` and of the data handed to `predict`.  The engine is
embedded as an arbitrary such pure function, and every theorem about the
cross-validator quantifies over it, so the theorems hold in particular for
the real engine. -/
def TreePredictor : Type :=
  DataFrame → Bool → String → ℤ → ℤ → ℤ → ℤ → ℤ → ℤ → DataFrame → List ℚ

/-- The body of one iteration of the fold loop of
`CrossValidator::validateSingleHyperparameter`: train a decision tree on
fold `fold`'s training subset with `(regression_, params.loss, mtry = -1,
params.max_depth, max_leaves = -1, params.min_obs, max_prop = -1,
random_seed_ + fold)`, predict on the fold's validation subset, and score
the predictions against the validation subset's label column `col(-1)`
with `accuracy`. -/
def foldScore (tree : TreePredictor) (cv : CrossValidator)
    (params : HyperparameterSet) (folds : List (DataFrame × DataFrame))
    (fold : ℕ) : ℚ :=
  let train_data := (folds.getD fold (⟨[]⟩, ⟨[]⟩)).1
  let val_data := (folds.getD fold (⟨[]⟩, ⟨[]⟩)).2
  let predictions :=
    tree train_data cv.regression_ params.loss (-1) params.max_depth (-1)
      params.min_obs (-1) (cv.random_seed_ + fold) val_data
  let true_labels := val_data.col (-1)
  accuracy true_labels predictions

/-- The fold loop of `CrossValidator::validateSingleHyperparameter`,
parameterised by the order in which the iterations complete.  The C++ loop
is an OpenMP `parallel for` over a pre-sized score vector
`fold_scores(k, 0.0)` in which iteration `fold` writes only to slot `fold`;
a shallow embedding of any interleaved execution of these disjoint writes
is a left fold of the per-slot writes in completion order.  Sequential
execution is the schedule `List.range k`; fold-parallel execution with any
worker count yields some permutation of `List.range k` as its completion
order. -/
def runFolds (tree : TreePredictor) (cv : CrossValidator)
    (params : HyperparameterSet) (folds : List (DataFrame × DataFrame))
    (k : ℕ) (sched : List ℕ) : List ℚ :=
  sched.foldl (fun fold_scores fold =>
    fold_scores.set fold (foldScore tree cv params folds fold))
    (List.replicate k 0)

/-- `CrossValidator::validateSingleHyperparameter(params, dataset_name)`
under an explicit completion order of the fold loop: create the k-fold
splits, run the fold loop, aggregate with `calculateMeanStd` and return
`CVResult(dataset_name, params.max_depth, 0.0, mean, std, fold_scores)`
(the time field is the literal `0.0` passed by the source). -/
noncomputable def validateSingleHyperparameterSched (tree : TreePredictor)
    (cv : CrossValidator) (params : HyperparameterSet) (dataset_name : String)
    (sched : List ℕ) : CVResult :=
  let folds := createKFolds cv.data_ cv.k_folds_ cv.random_seed_
  let fold_scores := runFolds tree cv params folds cv.k_folds_.toNat sched
  let mean_std := calculateMeanStd fold_scores
  ⟨dataset_name, params.max_depth, 0, mean_std.1, mean_std.2, fold_scores⟩

/-- `CrossValidator::validateSingleHyperparameter(params, dataset_name)`:
the fold loop in its sequential (program-order) schedule. -/
noncomputable def validateSingleHyperparameter (tree : TreePredictor)
    (cv : CrossValidator) (params : HyperparameterSet)
    (dataset_name : String) : CVResult :=
  validateSingleHyperparameterSched tree cv params dataset_name
    (List.range cv.k_folds_.toNat)

/-- `CrossValidator::validateDepth(max_depth, dataset_name)`: validate the
single hyperparameter set `HyperparameterSet(max_depth)`. -/
noncomputable def validateDepth (tree : TreePredictor) (cv : CrossValidator)
    (max_depth : ℤ) (dataset_name : String) : CVResult :=
  validateSingleHyperparameter tree cv ⟨max_depth, 1, "gini_impurity"⟩
    dataset_name

/-- `CrossValidator::gridSearchCV(param_grid, dataset_name)`: validate each
hyperparameter set of the grid in turn, pushing each result onto the result
vector. -/
noncomputable def gridSearchCV (tree : TreePredictor) (cv : CrossValidator)
    (param_grid : List HyperparameterSet) (dataset_name : String) :
    List CVResult :=
  param_grid.foldl
    (fun results params =>
      results ++ [validateSingleHyperparameter tree cv params dataset_name])
    []

/-- `CrossValidator::validateDepths(depths, dataset_name)`: build the grid
`HyperparameterSet(depth)` for each depth, then run `gridSearchCV`. -/
noncomputable def validateDepths (tree : TreePredictor) (cv : CrossValidator)
    (depths : List ℤ) (dataset_name : String) : List CVResult :=
  let param_grid :=
    depths.foldl
      (fun grid depth => grid ++ [(⟨depth, 1, "gini_impurity"⟩ : HyperparameterSet)])
      []
  gridSearchCV tree cv param_grid dataset_name

/-- `CrossValidator::getBestParams(cv_results)`: an empty input returns the
default `HyperparameterSet()`; otherwise scan all results, replacing the
tracked `(best_score, best_depth)` only on a strictly greater mean accuracy,
and return `HyperparameterSet(best_depth)`.  (The method reads no validator
state, so it is embedded as a plain function of the result list.) -/
def getBestParams (cv_results : List CVResult) : HyperparameterSet :=
  match cv_results with
  | [] => HyperparameterSet.default
  | r0 :: rest =>
    let best :=
      (r0 :: rest).foldl
        (fun best r =>
          if r.mean_cv_accuracy > best.1 then (r.mean_cv_accuracy, r.max_depth)
          else best)
        (r0.mean_cv_accuracy, r0.max_depth)
    ⟨best.2, 1, "gini_impurity"⟩

/-- A concrete tree predictor for instantiating the quantified theorems: it
predicts each row's own label. -/
def cTree : TreePredictor := fun _ _ _ _ _ _ _ _ _ pd => pd.col (-1)

/-- A concrete tree predictor whose output depends on the `mtry` argument. -/
def cTreeMtry : TreePredictor := fun _ _ _ mtry _ _ _ _ _ _ => [(mtry : ℚ)]

/-- A concrete tree predictor whose output depends on the `max_prop`
argument. -/
def cTreeMaxProp : TreePredictor := fun _ _ _ _ _ _ _ max_prop _ _ => [(max_prop : ℚ)]

/-- A concrete four-row, two-column dataset. -/
def cDF : DataFrame := ⟨[[0, 0], [0, 1], [1, 0], [1, 1]]⟩

/-- A concrete cross-validator over `cDF` with two folds and seed 42. -/
def cCV : CrossValidator := ⟨cDF, 2, 42, false⟩

/-- A concrete hyperparameter set. -/
def cParams : HyperparameterSet := ⟨3, 1, "gini_impurity"⟩

/-- Accumulating a list by appending singletons is `map`. -/
theorem foldl_push {α β : Type _} (g : β → α) (l : List β) (acc : List α) :
    l.foldl (fun a b => a ++ [g b]) acc = acc ++ l.map g := by
  induction l generalizing acc with
  | nil => simp
  | cons b t ih => simp [ih, List.append_assoc]

/-- Accumulating rows with `addRow` over an index list appends the mapped rows. -/
theorem addRow_foldl (s : DataFrame) (idxs : List ℕ) (df : DataFrame) :
    (idxs.foldl (fun d i => d.addRow (s.row i)) df).rows
      = df.rows ++ idxs.map s.row := by
  induction idxs generalizing df with
  | nil => simp
  | cons i t ih =>
    rw [List.foldl_cons, ih]
    simp [DataFrame.addRow, List.append_assoc]

/-- Accumulating rows with a guarded `addRow` appends the rows of the
indices passing the guard. -/
theorem addRow_foldl_if (s : DataFrame) (p : ℕ → Prop) [DecidablePred p]
    (idxs : List ℕ) (df : DataFrame) :
    (idxs.foldl (fun d i => if p i then d.addRow (s.row i) else d) df).rows
      = df.rows ++ (idxs.filter (fun i => decide (p i))).map s.row := by
  induction idxs generalizing df with
  | nil => simp
  | cons i t ih =>
    by_cases h : p i
    · rw [List.foldl_cons, if_pos h, ih]
      simp [h, DataFrame.addRow, List.append_assoc]
    · rw [List.foldl_cons, if_neg h, ih]
      simp [h]

/-- Extracting an element and prepending it to the remainder of the list is
a permutation. -/
theorem get_cons_eraseIdx_perm {α : Type _} :
    ∀ (l : List α) (j : ℕ) (h : j < l.length),
      List.Perm (l.get ⟨j, h⟩ :: l.eraseIdx j) l
  | a :: as, 0, _ => List.Perm.refl _
  | a :: as, j + 1, h =>
      (List.Perm.swap a (as.get ⟨j, Nat.lt_of_succ_lt_succ h⟩)
          (as.eraseIdx j)).trans
        (List.Perm.cons a (get_cons_eraseIdx_perm as j (Nat.lt_of_succ_lt_succ h)))

/-- The modelled shuffle is a permutation of its input. -/
theorem shuffleGo_perm : ∀ (n seed : ℕ) (l : List Row), l.length = n →
    List.Perm (shuffleGo seed n l) l := by
  intro n
  induction n with
  | zero =>
    intro seed l hl
    rw [List.length_eq_zero.mp hl]
    exact List.Perm.refl _
  | succ n ih =>
    intro seed l hl
    match l with
    | [] => simp at hl
    | a :: as =>
      simp only [shuffleGo]
      have hj : lcg seed % (a :: as).length < (a :: as).length :=
        Nat.mod_lt _ (by simp)
      refine List.Perm.trans (List.Perm.cons _ (ih _ _ ?_))
        (get_cons_eraseIdx_perm _ _ hj)
      rw [List.length_eraseIdx_of_lt hj]
      simp only [List.length_cons] at hl ⊢
      omega

/-- `fisherYates` permutes its input. -/
theorem fisherYates_perm (seed : ℕ) (l : List Row) :
    List.Perm (fisherYates seed l) l :=
  shuffleGo_perm l.length seed l rfl

/-- `sample(-1, seed, false)` permutes the rows of the dataset. -/
theorem sample_perm (df : DataFrame) (c seed : ℤ) (r : Bool) :
    List.Perm (df.sample c seed r).rows df.rows :=
  fisherYates_perm seed.toNat df.rows

/-- `sample(-1, seed, false)` preserves the number of rows. -/
theorem sample_length (df : DataFrame) (c seed : ℤ) (r : Bool) :
    (df.sample c seed r).length = df.length :=
  (sample_perm df c seed r).length_eq

/-- The start-index loop satisfies the obvious recurrence. -/
theorem startIdx_succ (fs r f : ℕ) :
    startIdx fs r (f + 1) = startIdx fs r f + (fs + if f < r then 1 else 0) := by
  simp [startIdx, List.range_succ]

/-- Closed form of the start-index loop. -/
theorem startIdx_closed (fs r f : ℕ) : startIdx fs r f = f * fs + min f r := by
  induction f with
  | zero => simp [startIdx]
  | succ f ih =>
    rw [startIdx_succ, ih]
    by_cases h : f < r
    · simp only [h, if_true]
      have h1 : min f r = f := by omega
      have h2 : min (f + 1) r = f + 1 := by omega
      rw [h1, h2]; ring
    · simp only [h, if_false]
      have h1 : min f r = r := by omega
      have h2 : min (f + 1) r = r := by omega
      rw [h1, h2]; ring

/-- The start-index loop is monotone in the fold index. -/
theorem startIdx_mono (fs r : ℕ) {f g : ℕ} (h : f ≤ g) :
    startIdx fs r f ≤ startIdx fs r g := by
  rw [startIdx_closed, startIdx_closed]
  have := Nat.mul_le_mul_right fs h
  omega

/-- With the quotient and remainder of `n / k`, the start indices of all `k`
folds sum up to exactly `n`. -/
theorem startIdx_total (n k : ℕ) (hk : 0 < k) : startIdx (n / k) (n % k) k = n := by
  rw [startIdx_closed]
  have h1 : n % k < k := Nat.mod_lt _ hk
  have h2 : k * (n / k) + n % k = n := Nat.div_add_mod n k
  have h3 : min k (n % k) = n % k := by omega
  rw [h3]
  omega

/-- Reading rows of a list over a contiguous in-bounds index range yields
the corresponding drop/take slice. -/
theorem map_row_range' (df : DataFrame) :
    ∀ (m s : ℕ), s + m ≤ df.rows.length →
      (List.range' s m).map df.row = (df.rows.drop s).take m := by
  intro m
  induction m with
  | zero => simp
  | succ m ih =>
    intro s hs
    have hsl : s < df.rows.length := by omega
    rw [List.range'_succ, List.map_cons, List.drop_eq_getElem_cons hsl]
    rw [List.take_succ_cons]
    congr 1
    · simp [DataFrame.row, List.getD_eq_getElem?_getD, List.getElem?_eq_getElem hsl]
    · have := ih (s + 1) (by omega)
      simpa using this

/-- Filtering the indices outside a contiguous block out of a full index
range leaves the prefix and suffix ranges. -/
theorem range_filter_outside (start sz rest : ℕ) :
    (List.range (start + sz + rest)).filter
        (fun i => decide (i < start ∨ start + sz ≤ i))
      = List.range start ++ List.range' (start + sz) rest := by
  have hsplit : List.range (start + sz + rest)
      = List.range' 0 start ++ List.range' start sz ++ List.range' (start + sz) rest := by
    have e1 : List.range' 0 start ++ List.range' start sz = List.range' 0 (start + sz) := by
      have h := List.range'_append_1 0 start sz
      rw [Nat.zero_add] at h
      rw [h, Nat.add_comm]
    have e2 : List.range' 0 (start + sz) ++ List.range' (start + sz) rest
        = List.range' 0 (start + sz + rest) := by
      have h := List.range'_append_1 0 (start + sz) rest
      rw [Nat.zero_add] at h
      rw [h, Nat.add_comm]
    rw [List.range_eq_range', ← e2, ← e1]
  rw [hsplit, List.filter_append, List.filter_append]
  have h1 : (List.range' 0 start).filter (fun i => decide (i < start ∨ start + sz ≤ i))
      = List.range' 0 start := by
    rw [List.filter_eq_self]
    intro a ha
    have := List.mem_range'_1.mp ha
    simp only [decide_eq_true_eq]
    omega
  have h2 : (List.range' start sz).filter (fun i => decide (i < start ∨ start + sz ≤ i))
      = [] := by
    rw [List.filter_eq_nil_iff]
    intro a ha
    have := List.mem_range'_1.mp ha
    simp only [decide_eq_true_eq]
    omega
  have h3 : (List.range' (start + sz) rest).filter
      (fun i => decide (i < start ∨ start + sz ≤ i)) = List.range' (start + sz) rest := by
    rw [List.filter_eq_self]
    intro a ha
    have := List.mem_range'_1.mp ha
    simp only [decide_eq_true_eq]
    omega
  rw [h1, h2, h3]
  simp [List.range_eq_range']

/-- Two data frames with the same rows are equal. -/
theorem DataFrame.eq_of_rows {a b : DataFrame} (h : a.rows = b.rows) : a = b := by
  cases a; cases b; simpa using h

/-- Normal form of `createKFolds`: the fold list maps each fold index to the
pair (rows outside the fold's validation block, the fold's validation
block), expressed as drop/take slices of the shuffled row list. -/
theorem createKFolds_eq (data : DataFrame) (k seed : ℤ) :
    createKFolds data k seed
      = (List.range k.toNat).map (fun fold =>
          (⟨(data.sample (-1) seed false).rows.take (blockStart data.length k.toNat fold)
              ++ (data.sample (-1) seed false).rows.drop
                  (blockStart data.length k.toNat fold + blockSize data.length k.toNat fold)⟩,
           ⟨((data.sample (-1) seed false).rows.drop
                (blockStart data.length k.toNat fold)).take
              (blockSize data.length k.toNat fold)⟩)) := by
  simp only [createKFolds]
  rw [foldl_push, List.nil_append]
  apply List.map_congr_left
  intro fold hfold
  have hfoldK : fold < k.toNat := List.mem_range.mp hfold
  have hK : 0 < k.toNat := Nat.lt_of_le_of_lt (Nat.zero_le _) hfoldK
  set sh := data.sample (-1) seed false with hsh
  have hlen : sh.length = data.length := sample_length data (-1) seed false
  have hlenr : sh.rows.length = data.length := hlen
  set n := data.length with hn
  set K := k.toNat with hKdef
  -- the quotient/remainder the code computes from the shuffled length
  have hq : sh.length / K = n / K := by rw [hlen]
  have hr : sh.length % K = n % K := by rw [hlen]
  have hbound : blockStart n K fold + blockSize n K fold ≤ n := by
    have h1 : blockStart n K fold + blockSize n K fold
        = startIdx (n / K) (n % K) (fold + 1) := by
      rw [startIdx_succ]; rfl
    rw [h1]
    calc startIdx (n / K) (n % K) (fold + 1)
        ≤ startIdx (n / K) (n % K) K := startIdx_mono _ _ hfoldK
      _ = n := startIdx_total n K hK
  refine congrArg₂ Prod.mk ?_ ?_
  · -- training data
    apply DataFrame.eq_of_rows
    rw [addRow_foldl_if sh (fun i =>
      i < startIdx (sh.length / K) (sh.length % K) fold ∨
        startIdx (sh.length / K) (sh.length % K) fold +
          (sh.length / K + if fold < sh.length % K then 1 else 0) ≤ i)]
    simp only [List.nil_append]
    have hstart : startIdx (sh.length / K) (sh.length % K) fold = blockStart n K fold := by
      rw [hq, hr]; rfl
    have hsz : sh.length / K + (if fold < sh.length % K then 1 else 0)
        = blockSize n K fold := by
      rw [hq, hr]; rfl
    rw [hstart, hsz]
    have hrest : sh.length = blockStart n K fold + blockSize n K fold
        + (n - (blockStart n K fold + blockSize n K fold)) := by
      rw [hlen]; omega
    rw [hrest, range_filter_outside, List.map_append]
    congr 1
    · have h0 : (0 : ℕ) + blockStart n K fold ≤ sh.rows.length := by
        rw [hlenr]; omega
      rw [List.range_eq_range', map_row_range' sh _ _ h0, List.drop_zero]
    · have h1 : blockStart n K fold + blockSize n K fold
          + (n - (blockStart n K fold + blockSize n K fold)) ≤ sh.rows.length := by
        rw [hlenr]; omega
      rw [map_row_range' sh _ _ h1]
      apply List.take_of_length_le
      rw [List.length_drop, hlenr]
  · -- validation data
    apply DataFrame.eq_of_rows
    rw [addRow_foldl]
    simp only [List.nil_append]
    have hstart : startIdx (sh.length / K) (sh.length % K) fold = blockStart n K fold := by
      rw [hq, hr]; rfl
    have hsz : sh.length / K + (if fold < sh.length % K then 1 else 0)
        = blockSize n K fold := by
      rw [hq, hr]; rfl
    rw [hstart, hsz]
    apply map_row_range'
    rw [hlenr]
    exact hbound

/-- The start of the next validation block is the end of the current one. -/
theorem blockStart_succ (n K j : ℕ) :
    blockStart n K (j + 1) = blockStart n K j + blockSize n K j := by
  rw [blockStart, startIdx_succ]; rfl

/-- Every validation block lies inside the dataset. -/
theorem blockStart_add_blockSize_le (n K i : ℕ) (h : i < K) :
    blockStart n K i + blockSize n K i ≤ n := by
  have hK : 0 < K := Nat.lt_of_le_of_lt (Nat.zero_le _) h
  rw [← blockStart_succ]
  calc blockStart n K (i + 1)
      ≤ blockStart n K K := startIdx_mono _ _ h
    _ = n := startIdx_total n K hK

/-- Concatenating the first `j` validation blocks of a list yields its
prefix up to the start of block `j`. -/
theorem join_take_blocks (l : List Row) (n K : ℕ) :
    ∀ j, ((List.range j).map
        (fun fold => (l.drop (blockStart n K fold)).take (blockSize n K fold))).flatten
      = l.take (blockStart n K j) := by
  intro j
  induction j with
  | zero => simp [blockStart, startIdx]
  | succ j ih =>
    rw [List.range_succ, List.map_append, List.flatten_append, ih]
    simp only [List.map_cons, List.map_nil, List.flatten_cons, List.flatten_nil,
      List.append_nil]
    rw [blockStart_succ, List.take_add]

/-- Reading an element of a mapped index range below the bound. -/
theorem getD_map_range {α : Type _} (g : ℕ → α) (K i : ℕ) (d : α) (h : i < K) :
    ((List.range K).map g).getD i d = g i := by
  have hi : i < ((List.range K).map g).length := by simpa using h
  rw [List.getD_eq_getElem?_getD, List.getElem?_eq_getElem hi]
  simp

/-- C1: for every dataset with `n` rows and every `k` with `1 < k ≤ n`,
`createKFolds(data, k, seed)` returns exactly `k` (training, validation)
pairs; validation subset `i` is the `i`-th contiguous block of the shuffled
dataset (so the validation subsets are pairwise disjoint selections of the
shuffled rows), its size is `⌊n/k⌋ + 1` for `i < n mod k` and `⌊n/k⌋`
otherwise; the concatenation of the validation subsets is exactly the
shuffled dataset, hence as a multiset it equals the whole dataset exactly
once each; and each fold's training subset is exactly the shuffled rows
outside that fold's validation block. -/
theorem claim_C1 (data : DataFrame) (k seed : ℤ)
    (h1 : 1 < k) (h2 : k ≤ (data.length : ℤ)) :
    (createKFolds data k seed).length = k.toNat
    ∧ (∀ i, i < k.toNat →
        ((createKFolds data k seed).getD i (⟨[]⟩, ⟨[]⟩)).2.rows
          = ((data.sample (-1) seed false).rows.drop
              (blockStart data.length k.toNat i)).take
              (blockSize data.length k.toNat i))
    ∧ (∀ i, i < k.toNat →
        ((createKFolds data k seed).getD i (⟨[]⟩, ⟨[]⟩)).2.rows.length
          = data.length / k.toNat
            + if i < data.length % k.toNat then 1 else 0)
    ∧ (∀ i j, i < j → j < k.toNat →
        blockStart data.length k.toNat i + blockSize data.length k.toNat i
          ≤ blockStart data.length k.toNat j)
    ∧ ((createKFolds data k seed).map (fun f => f.2.rows)).flatten
        = (data.sample (-1) seed false).rows
    ∧ (((createKFolds data k seed).map (fun f => f.2.rows)).flatten : Multiset Row)
        = (data.rows : Multiset Row)
    ∧ (∀ i, i < k.toNat →
        ((createKFolds data k seed).getD i (⟨[]⟩, ⟨[]⟩)).1.rows
          = (data.sample (-1) seed false).rows.take (blockStart data.length k.toNat i)
            ++ (data.sample (-1) seed false).rows.drop
                (blockStart data.length k.toNat i + blockSize data.length k.toNat i)) := by
  have hK : 0 < k.toNat := by omega
  have hlenr : (data.sample (-1) seed false).rows.length = data.length :=
    sample_length data (-1) seed false
  have hval : ∀ i, i < k.toNat →
      ((createKFolds data k seed).getD i (⟨[]⟩, ⟨[]⟩)).2.rows
        = ((data.sample (-1) seed false).rows.drop
            (blockStart data.length k.toNat i)).take
            (blockSize data.length k.toNat i) := by
    intro i hi
    rw [createKFolds_eq, getD_map_range _ _ _ _ hi]
  have htrain : ∀ i, i < k.toNat →
      ((createKFolds data k seed).getD i (⟨[]⟩, ⟨[]⟩)).1.rows
        = (data.sample (-1) seed false).rows.take (blockStart data.length k.toNat i)
          ++ (data.sample (-1) seed false).rows.drop
              (blockStart data.length k.toNat i + blockSize data.length k.toNat i) := by
    intro i hi
    rw [createKFolds_eq, getD_map_range _ _ _ _ hi]
  have hflat : ((createKFolds data k seed).map (fun f => f.2.rows)).flatten
      = (data.sample (-1) seed false).rows := by
    have key := join_take_blocks (data.sample (-1) seed false).rows data.length
      k.toNat k.toNat
    rw [blockStart, startIdx_total data.length k.toNat hK,
      List.take_of_length_le (le_of_eq hlenr)] at key
    rw [createKFolds_eq, List.map_map]
    exact Eq.trans (congrArg List.flatten (List.map_congr_left (fun x _ => rfl))) key
  refine ⟨?_, hval, ?_, ?_, hflat, ?_, htrain⟩
  · rw [createKFolds_eq]; simp
  · intro i hi
    rw [hval i hi]
    have hb := blockStart_add_blockSize_le data.length k.toNat i hi
    rw [List.length_take, List.length_drop, hlenr]
    have : blockSize data.length k.toNat i
        = data.length / k.toNat + if i < data.length % k.toNat then 1 else 0 := rfl
    omega
  · intro i j hij hj
    rw [← blockStart_succ]
    exact startIdx_mono _ _ hij
  · rw [hflat]
    exact Multiset.coe_eq_coe.mpr (sample_perm data (-1) seed false)

/-- Witness for C1 at a concrete dataset (4 rows) with `k = 2`: both
hypotheses hold and the first conjunct (exactly `k` pairs) is obtained by
applying the theorem. -/
theorem claim_C1_witness :
    (1 : ℤ) < 2 ∧ (2 : ℤ) ≤ (cDF.length : ℤ)
      ∧ (createKFolds cDF 2 42).length = (2 : ℤ).toNat :=
  ⟨by decide, by decide, (claim_C1 cDF 2 42 (by decide) (by decide)).1⟩

/-- Writing per-index values into disjoint slots preserves the length of
the score vector. -/
theorem foldl_set_length (g : ℕ → ℚ) (sched : List ℕ) (acc : List ℚ) :
    (sched.foldl (fun sc f => sc.set f (g f)) acc).length = acc.length := by
  induction sched generalizing acc with
  | nil => rfl
  | cons f t ih => rw [List.foldl_cons, ih, List.length_set]

/-- After writing `g f` into slot `f` for every `f` in the schedule, slot
`i` holds `g i` if `i` was scheduled and its original value otherwise. -/
theorem foldl_set_getD (g : ℕ → ℚ) (sched : List ℕ) (acc : List ℚ) (i : ℕ)
    (hi : i < acc.length) :
    (sched.foldl (fun sc f => sc.set f (g f)) acc).getD i 0
      = if i ∈ sched then g i else acc.getD i 0 := by
  induction sched generalizing acc with
  | nil => simp
  | cons f t ih =>
    rw [List.foldl_cons]
    rw [ih (acc.set f (g f)) (by simpa using hi)]
    by_cases hmem : i ∈ t
    · simp [hmem]
    · by_cases hif : i = f
      · subst hif
        have hlt : i < (acc.set i (g i)).length := by simpa using hi
        simp only [hmem, if_false, List.mem_cons, true_or, if_true]
        rw [List.getD_eq_getElem?_getD, List.getElem?_eq_getElem hlt]
        simp
      · have : i ∉ f :: t := by simp [hmem, hif]
        simp only [hmem, if_false, this, if_false]
        have hlt : i < (acc.set f (g f)).length := by simpa using hi
        rw [List.getD_eq_getElem?_getD, List.getElem?_eq_getElem hlt,
          List.getD_eq_getElem?_getD, List.getElem?_eq_getElem hi]
        simp [List.getElem_set_ne (by omega : f ≠ i)]

/-- A scheduled fold-loop run with any completion order covering each fold
exactly once leaves `foldScore` at every slot. -/
theorem runFolds_getD (tree : TreePredictor) (cv : CrossValidator)
    (params : HyperparameterSet) (folds : List (DataFrame × DataFrame))
    (k : ℕ) (sched : List ℕ) (hp : List.Perm sched (List.range k))
    (i : ℕ) (hi : i < k) :
    (runFolds tree cv params folds k sched).getD i 0
      = foldScore tree cv params folds i := by
  rw [runFolds, foldl_set_getD _ _ _ _ (by simpa using hi)]
  have hmem : i ∈ sched := hp.mem_iff.mpr (List.mem_range.mpr hi)
  simp [hmem]

/-- The fold-loop result is independent of the completion order: any
permutation of the fold indices produces the sequential score vector. -/
theorem runFolds_eq_of_perm (tree : TreePredictor) (cv : CrossValidator)
    (params : HyperparameterSet) (folds : List (DataFrame × DataFrame))
    (k : ℕ) (sched : List ℕ) (hp : List.Perm sched (List.range k)) :
    runFolds tree cv params folds k sched
      = runFolds tree cv params folds k (List.range k) := by
  have hl1 : (runFolds tree cv params folds k sched).length = k := by
    rw [runFolds, foldl_set_length]; simp
  have hl2 : (runFolds tree cv params folds k (List.range k)).length = k := by
    rw [runFolds, foldl_set_length]; simp
  apply List.ext_getElem (by rw [hl1, hl2])
  intro i t1 t2
  have hik : i < k := by omega
  have e1 := runFolds_getD tree cv params folds k sched hp i hik
  have e2 := runFolds_getD tree cv params folds k (List.range k)
    (List.Perm.refl _) i hik
  rw [List.getD_eq_getElem?_getD, List.getElem?_eq_getElem t1] at e1
  rw [List.getD_eq_getElem?_getD, List.getElem?_eq_getElem t2] at e2
  simp only [Option.getD_some] at e1 e2
  rw [e1, e2]

/-- C2: the result of `validateSingleHyperparameter` is independent of the
execution mode and worker count of the fold loop: under any completion
order of the folds (any permutation of the fold indices — sequential
execution and fold-parallel execution with any number of worker threads
only differ in this order, since each iteration writes exclusively to its
own slot of the pre-sized score vector), the returned result is identical
to the sequential one; in particular slot `i` of `fold_scores` always holds
fold `i`'s accuracy, and the mean and standard deviation agree exactly. -/
theorem claim_C2 (tree : TreePredictor) (cv : CrossValidator)
    (params : HyperparameterSet) (dataset_name : String) (sched : List ℕ)
    (hp : List.Perm sched (List.range cv.k_folds_.toNat)) :
    validateSingleHyperparameterSched tree cv params dataset_name sched
      = validateSingleHyperparameter tree cv params dataset_name
    ∧ (validateSingleHyperparameterSched tree cv params dataset_name
        sched).mean_cv_accuracy
      = (validateSingleHyperparameter tree cv params dataset_name).mean_cv_accuracy
    ∧ (validateSingleHyperparameterSched tree cv params dataset_name
        sched).std_cv_accuracy
      = (validateSingleHyperparameter tree cv params dataset_name).std_cv_accuracy
    ∧ (∀ i, i < cv.k_folds_.toNat →
        (validateSingleHyperparameterSched tree cv params dataset_name
            sched).fold_scores.getD i 0
          = foldScore tree cv params
              (createKFolds cv.data_ cv.k_folds_ cv.random_seed_) i) := by
  have hmain : validateSingleHyperparameterSched tree cv params dataset_name sched
      = validateSingleHyperparameter tree cv params dataset_name := by
    simp only [validateSingleHyperparameter, validateSingleHyperparameterSched]
    rw [runFolds_eq_of_perm tree cv params _ _ sched hp]
  refine ⟨hmain, congrArg CVResult.mean_cv_accuracy hmain,
    congrArg CVResult.std_cv_accuracy hmain, ?_⟩
  intro i hi
  have hfs : (validateSingleHyperparameterSched tree cv params dataset_name
      sched).fold_scores
      = runFolds tree cv params (createKFolds cv.data_ cv.k_folds_ cv.random_seed_)
          cv.k_folds_.toNat sched := rfl
  rw [hfs]
  exact runFolds_getD tree cv params _ _ sched hp i hi

/-- Witness for C2: on the concrete two-fold validator, the reversed
completion order `[1, 0]` yields the same result as the sequential order. -/
theorem claim_C2_witness :
    List.Perm [1, 0] (List.range cCV.k_folds_.toNat)
      ∧ validateSingleHyperparameterSched cTree cCV cParams "cancer" [1, 0]
        = validateSingleHyperparameter cTree cCV cParams "cancer" :=
  ⟨by decide, (claim_C2 cTree cCV cParams "cancer" [1, 0] (by decide)).1⟩

/-- C3: for every tree engine, hyperparameter set and fold index
`i < k`, the `i`-th collected score of `validateSingleHyperparameter` is
the accuracy, against the validation subset's label column, of the
predictions of the one decision tree trained on fold `i`'s training subset
with the input `max_depth`, `min_obs` and `loss`, `mtry = -1`,
`max_leaves = -1`, `max_prop = -1`, and seed `random_seed_ + i`. -/
theorem claim_C3 (tree : TreePredictor) (cv : CrossValidator)
    (params : HyperparameterSet) (dataset_name : String) (i : ℕ)
    (hi : i < cv.k_folds_.toNat) :
    (validateSingleHyperparameter tree cv params dataset_name).fold_scores.getD i 0
      = accuracy
          (((createKFolds cv.data_ cv.k_folds_ cv.random_seed_).getD i
              (⟨[]⟩, ⟨[]⟩)).2.col (-1))
          (tree
            ((createKFolds cv.data_ cv.k_folds_ cv.random_seed_).getD i
              (⟨[]⟩, ⟨[]⟩)).1
            cv.regression_ params.loss (-1) params.max_depth (-1) params.min_obs
            (-1) (cv.random_seed_ + i)
            ((createKFolds cv.data_ cv.k_folds_ cv.random_seed_).getD i
              (⟨[]⟩, ⟨[]⟩)).2) := by
  have hfs : (validateSingleHyperparameter tree cv params
      dataset_name).fold_scores
      = runFolds tree cv params (createKFolds cv.data_ cv.k_folds_ cv.random_seed_)
          cv.k_folds_.toNat (List.range cv.k_folds_.toNat) := rfl
  rw [hfs]
  exact runFolds_getD tree cv params _ _ _ (List.Perm.refl _) i hi

/-- Witness for C3 at fold 0 of the concrete two-fold validator. -/
theorem claim_C3_witness :
    0 < cCV.k_folds_.toNat
      ∧ (validateSingleHyperparameter cTree cCV cParams
          "cancer").fold_scores.getD 0 0
        = accuracy
            (((createKFolds cCV.data_ cCV.k_folds_ cCV.random_seed_).getD 0
                (⟨[]⟩, ⟨[]⟩)).2.col (-1))
            (cTree
              ((createKFolds cCV.data_ cCV.k_folds_ cCV.random_seed_).getD 0
                (⟨[]⟩, ⟨[]⟩)).1
              cCV.regression_ cParams.loss (-1) cParams.max_depth (-1)
              cParams.min_obs (-1) (cCV.random_seed_ + 0)
              ((createKFolds cCV.data_ cCV.k_folds_ cCV.random_seed_).getD 0
                (⟨[]⟩, ⟨[]⟩)).2) :=
  ⟨by decide, claim_C3 cTree cCV cParams "cancer" 0 (by decide)⟩

/-- C5 (amended): the `CVResult` constructed and returned by
`validateSingleHyperparameter` contains the dataset name, the `max_depth`,
the `k` per-fold accuracy scores ordered by fold index, their mean and
standard deviation as computed by `calculateMeanStd`, and a `cv_time_ms`
field equal to the literal `0.0` — not the elapsed time of the run, which
is measured and written into the field afterwards by the benchmark
harness. -/
theorem claim_C5 (tree : TreePredictor) (cv : CrossValidator)
    (params : HyperparameterSet) (dataset_name : String) :
    (validateSingleHyperparameter tree cv params dataset_name).dataset
        = dataset_name
    ∧ (validateSingleHyperparameter tree cv params dataset_name).max_depth
        = params.max_depth
    ∧ (validateSingleHyperparameter tree cv params
        dataset_name).fold_scores.length = cv.k_folds_.toNat
    ∧ (∀ i, i < cv.k_folds_.toNat →
        (validateSingleHyperparameter tree cv params
            dataset_name).fold_scores.getD i 0
          = foldScore tree cv params
              (createKFolds cv.data_ cv.k_folds_ cv.random_seed_) i)
    ∧ (validateSingleHyperparameter tree cv params
        dataset_name).mean_cv_accuracy
      = (calculateMeanStd (validateSingleHyperparameter tree cv params
          dataset_name).fold_scores).1
    ∧ (validateSingleHyperparameter tree cv params
        dataset_name).std_cv_accuracy
      = (calculateMeanStd (validateSingleHyperparameter tree cv params
          dataset_name).fold_scores).2
    ∧ (validateSingleHyperparameter tree cv params dataset_name).cv_time_ms
        = 0 := by
  refine ⟨rfl, rfl, ?_, ?_, rfl, rfl, rfl⟩
  · have hfs : (validateSingleHyperparameter tree cv params
        dataset_name).fold_scores
        = runFolds tree cv params
            (createKFolds cv.data_ cv.k_folds_ cv.random_seed_)
            cv.k_folds_.toNat (List.range cv.k_folds_.toNat) := rfl
    rw [hfs, runFolds, foldl_set_length]
    simp
  · intro i hi
    have hfs : (validateSingleHyperparameter tree cv params
        dataset_name).fold_scores
        = runFolds tree cv params
            (createKFolds cv.data_ cv.k_folds_ cv.random_seed_)
            cv.k_folds_.toNat (List.range cv.k_folds_.toNat) := rfl
    rw [hfs]
    exact runFolds_getD tree cv params _ _ _ (List.Perm.refl _) i hi

/-- Counterexample to C5 as stated: on a concrete run, the time field of
the result constructed by `validateSingleHyperparameter` is the constant
`0.0`, not the elapsed time of the run (the source passes the literal
`0.0` to the `CVResult` constructor; the caller overwrites the field with
a measured duration after the call returns). -/
theorem claim_C5_counterexample :
    (validateSingleHyperparameter cTree cCV cParams "cancer").cv_time_ms = 0 :=
  rfl

/-- Witness for the amended C5 at fold 0 of the concrete validator. -/
theorem claim_C5_witness :
    0 < cCV.k_folds_.toNat
      ∧ (validateSingleHyperparameter cTree cCV cParams
          "cancer").fold_scores.getD 0 0
        = foldScore cTree cCV cParams
            (createKFolds cCV.data_ cCV.k_folds_ cCV.random_seed_) 0 :=
  ⟨by decide, (claim_C5 cTree cCV cParams "cancer").2.2.2.1 0 (by decide)⟩

/-- The loop-style accumulation of a function over a list is the sum of
its mapped values. -/
theorem foldl_add_map (f : ℚ → ℚ) (l : List ℚ) (a : ℚ) :
    l.foldl (fun acc s => acc + f s) a = a + (l.map f).sum := by
  induction l generalizing a with
  | nil => simp
  | cons x t ih => rw [List.foldl_cons, ih, List.map_cons, List.sum_cons]; ring

/-- C7: for every non-empty score list, `calculateMeanStd` returns the mean
`(Σ scores) / k` and the population standard deviation
`√(Σ (s − mean)² / k)` — dividing by `k`, not `k − 1`. -/
theorem claim_C7 (scores : List ℚ) (h : scores ≠ []) :
    (calculateMeanStd scores).1 = scores.sum / scores.length
    ∧ (calculateMeanStd scores).2
      = Real.sqrt (((scores.map
          (fun s => (s - scores.sum / scores.length) ^ 2)).sum
            / scores.length : ℚ)) := by
  have hne : scores.isEmpty = false := by
    cases scores with
    | nil => simp at h
    | cons x t => rfl
  have hsum : scores.foldl (fun acc s => acc + s) 0 = scores.sum := by
    have := foldl_add_map id scores 0
    simpa using this
  constructor
  · simp only [calculateMeanStd, hne, Bool.false_eq_true, if_false]
    rw [hsum]
  · simp only [calculateMeanStd, hne, Bool.false_eq_true, if_false]
    rw [hsum]
    congr 2
    rw [foldl_add_map (fun s =>
      (s - scores.sum / scores.length) * (s - scores.sum / scores.length))
      scores 0]
    rw [zero_add]
    have hmap : scores.map (fun s =>
          (s - scores.sum / scores.length) * (s - scores.sum / scores.length))
        = scores.map (fun s => (s - scores.sum / scores.length) ^ 2) := by
      apply List.map_congr_left
      intro s _
      ring
    rw [hmap]

/-- Witness for C7 on the concrete score list `[1, 3]`. -/
theorem claim_C7_witness :
    ([(1 : ℚ), 3] ≠ [])
      ∧ (calculateMeanStd [(1 : ℚ), 3]).1
        = [(1 : ℚ), 3].sum / ([(1 : ℚ), 3] : List ℚ).length :=
  ⟨by decide, (claim_C7 [(1 : ℚ), 3] (by decide)).1⟩

/-- C6: constructing a `CrossValidator` fails with `InvalidFoldCount`
whenever `k ≤ 1` or the dataset has fewer than `k` rows; for `k > 1` and
at least `k` rows, construction succeeds and stores the dataset, fold
count, seed and task type unchanged. -/
theorem claim_C6 (data : DataFrame) (k seed : ℤ) (regression : Bool) :
    ((k ≤ 1 ∨ (data.length : ℤ) < k) →
      CrossValidator.make data k seed regression
        = Except.error CVError.InvalidFoldCount)
    ∧ (1 < k → k ≤ (data.length : ℤ) →
      CrossValidator.make data k seed regression
        = Except.ok ⟨data, k, seed, regression⟩) := by
  constructor
  · intro h
    rw [CrossValidator.make]
    rcases h with h | h
    · rw [if_neg (by omega)]
    · by_cases h1 : 1 < k
      · rw [if_pos h1, if_neg (by omega)]
      · rw [if_neg h1]
  · intro h1 h2
    rw [CrossValidator.make, if_pos h1, if_pos h2]

/-- Witness for C6: on the concrete four-row dataset, `k = 2` succeeds and
`k = 5` fails with `InvalidFoldCount`, both by applying the theorem. -/
theorem claim_C6_witness :
    ((1 : ℤ) < 2 ∧ (2 : ℤ) ≤ (cDF.length : ℤ)
      ∧ CrossValidator.make cDF 2 42 false = Except.ok ⟨cDF, 2, 42, false⟩)
    ∧ ((cDF.length : ℤ) < 5
      ∧ CrossValidator.make cDF 5 42 false
        = Except.error CVError.InvalidFoldCount) :=
  ⟨⟨by decide, by decide, (claim_C6 cDF 2 42 false).2 (by decide) (by decide)⟩,
   ⟨by decide, (claim_C6 cDF 5 42 false).1 (Or.inr (by decide))⟩⟩

/-- C8: `gridSearchCV` maps `validateSingleHyperparameter` independently
over the grid — the result list has the grid's length and its `i`-th entry
is the validation of the `i`-th hyperparameter set, with no state carried
between calls — and `validateDepths` equals `gridSearchCV` on the grid
obtained by mapping each depth to the default hyperparameter set with that
`max_depth`. -/
theorem claim_C8 (tree : TreePredictor) (cv : CrossValidator)
    (param_grid : List HyperparameterSet) (dataset_name : String)
    (depths : List ℤ) :
    gridSearchCV tree cv param_grid dataset_name
      = param_grid.map (fun params =>
          validateSingleHyperparameter tree cv params dataset_name)
    ∧ (gridSearchCV tree cv param_grid dataset_name).length = param_grid.length
    ∧ (∀ i, i < param_grid.length →
        (gridSearchCV tree cv param_grid dataset_name).getD i
            ⟨"", 0, 0, 0, 0, []⟩
          = validateSingleHyperparameter tree cv
              (param_grid.getD i HyperparameterSet.default) dataset_name)
    ∧ validateDepths tree cv depths dataset_name
      = gridSearchCV tree cv
          (depths.map (fun depth => (⟨depth, 1, "gini_impurity"⟩ :
            HyperparameterSet))) dataset_name := by
  have hmap : gridSearchCV tree cv param_grid dataset_name
      = param_grid.map (fun params =>
          validateSingleHyperparameter tree cv params dataset_name) := by
    rw [gridSearchCV, foldl_push, List.nil_append]
  refine ⟨hmap, ?_, ?_, ?_⟩
  · rw [hmap, List.length_map]
  · intro i hi
    rw [hmap]
    have hi2 : i < (param_grid.map (fun params =>
        validateSingleHyperparameter tree cv params dataset_name)).length := by
      simpa using hi
    rw [List.getD_eq_getElem?_getD, List.getElem?_eq_getElem hi2,
      List.getD_eq_getElem?_getD, List.getElem?_eq_getElem hi]
    simp
  · rw [validateDepths, foldl_push, List.nil_append]

/-- Witness for C8: on a concrete one-element grid, the 0-th result is the
validation of the 0-th hyperparameter set. -/
theorem claim_C8_witness :
    0 < [cParams].length
      ∧ (gridSearchCV cTree cCV [cParams] "cancer").getD 0 ⟨"", 0, 0, 0, 0, []⟩
        = validateSingleHyperparameter cTree cCV
            ([cParams].getD 0 HyperparameterSet.default) "cancer" :=
  ⟨by decide,
   (claim_C8 cTree cCV [cParams] "cancer" []).2.2.1 0 (by decide)⟩

/-- C9: every decision tree trained inside `validateSingleHyperparameter`
is built with feature subsampling disabled (`mtry = -1`), no leaf-count
limit (`max_leaves = -1`) and no split-proportion limit (`max_prop = -1`):
any two tree engines that agree whenever those three arguments are `-1`
produce identical cross-validation results, whatever values they take on
other argument combinations. -/
theorem claim_C9 (t1 t2 : TreePredictor)
    (h : ∀ (train_data : DataFrame) (regression : Bool) (loss : String)
        (max_depth min_obs seed : ℤ) (val_data : DataFrame),
      t1 train_data regression loss (-1) max_depth (-1) min_obs (-1) seed val_data
        = t2 train_data regression loss (-1) max_depth (-1) min_obs (-1) seed
            val_data)
    (cv : CrossValidator) (params : HyperparameterSet) (dataset_name : String) :
    validateSingleHyperparameter t1 cv params dataset_name
      = validateSingleHyperparameter t2 cv params dataset_name := by
  have hscore : foldScore t1 cv params
      (createKFolds cv.data_ cv.k_folds_ cv.random_seed_)
      = foldScore t2 cv params
          (createKFolds cv.data_ cv.k_folds_ cv.random_seed_) := by
    funext fold
    simp only [foldScore]
    rw [h]
  simp only [validateSingleHyperparameter, validateSingleHyperparameterSched,
    runFolds, hscore]

/-- Witness for C9: two concrete engines that expose the `mtry` and
`max_prop` arguments in their output — hence differ wildly away from
`(-1, -1, -1)` — coincide there, so the theorem applies and their
cross-validation results are equal. -/
theorem claim_C9_witness :
    validateSingleHyperparameter cTreeMtry cCV cParams "cancer"
      = validateSingleHyperparameter cTreeMaxProp cCV cParams "cancer" :=
  claim_C9 cTreeMtry cTreeMaxProp (fun _ _ _ _ _ _ _ => rfl) cCV cParams "cancer"

/-- C10: applied to an empty result list, `getBestParams` does not fail: it
returns the default hyperparameter set
`(max_depth = 5, min_obs = 1, loss = "gini_impurity")`. -/
theorem claim_C10 :
    getBestParams [] = (⟨5, 1, "gini_impurity"⟩ : HyperparameterSet) := rfl

/-- An in-bounds `getD` read is a member of the list. -/
theorem getD_mem_of_lt {α : Type _} (l : List α) (j : ℕ) (d : α)
    (h : j < l.length) : l.getD j d ∈ l := by
  rw [List.getD_eq_getElem?_getD, List.getElem?_eq_getElem h]
  exact List.getElem_mem h

/-- Invariant of the `getBestParams` scan: starting from a tracked pair
`(bs, bd)`, the final best score dominates every scanned mean and the seed
score, and the final pair is either the seed unchanged or comes from the
first scanned result strictly exceeding everything before it. -/
theorem getBest_foldl_invariant (l : List CVResult) :
    ∀ (bs : ℚ) (bd : ℤ),
      (∀ r ∈ l, r.mean_cv_accuracy
        ≤ (l.foldl (fun best r =>
            if r.mean_cv_accuracy > best.1 then (r.mean_cv_accuracy, r.max_depth)
            else best) (bs, bd)).1)
      ∧ bs ≤ (l.foldl (fun best r =>
            if r.mean_cv_accuracy > best.1 then (r.mean_cv_accuracy, r.max_depth)
            else best) (bs, bd)).1
      ∧ (((l.foldl (fun best r =>
            if r.mean_cv_accuracy > best.1 then (r.mean_cv_accuracy, r.max_depth)
            else best) (bs, bd)) = (bs, bd))
        ∨ (∃ i, i < l.length
            ∧ (l.getD i ⟨"", 0, 0, 0, 0, []⟩).mean_cv_accuracy
              = (l.foldl (fun best r =>
                  if r.mean_cv_accuracy > best.1 then
                    (r.mean_cv_accuracy, r.max_depth)
                  else best) (bs, bd)).1
            ∧ (l.getD i ⟨"", 0, 0, 0, 0, []⟩).max_depth
              = (l.foldl (fun best r =>
                  if r.mean_cv_accuracy > best.1 then
                    (r.mean_cv_accuracy, r.max_depth)
                  else best) (bs, bd)).2
            ∧ bs < (l.foldl (fun best r =>
                  if r.mean_cv_accuracy > best.1 then
                    (r.mean_cv_accuracy, r.max_depth)
                  else best) (bs, bd)).1
            ∧ ∀ j, j < i →
                (l.getD j ⟨"", 0, 0, 0, 0, []⟩).mean_cv_accuracy
                  < (l.foldl (fun best r =>
                      if r.mean_cv_accuracy > best.1 then
                        (r.mean_cv_accuracy, r.max_depth)
                      else best) (bs, bd)).1)) := by
  induction l with
  | nil =>
    intro bs bd
    exact ⟨by simp, le_refl bs, Or.inl rfl⟩
  | cons r t ih =>
    intro bs bd
    rw [List.foldl_cons]
    by_cases hr : r.mean_cv_accuracy > bs
    · rw [if_pos hr]
      obtain ⟨ha, hb, hc⟩ := ih r.mean_cv_accuracy r.max_depth
      refine ⟨?_, le_trans (le_of_lt hr) hb, ?_⟩
      · intro x hx
        rcases List.mem_cons.mp hx with hx | hx
        · rw [hx]; exact hb
        · exact ha x hx
      · rcases hc with hc | ⟨i, hi, hm, hd, hlt, hfirst⟩
        · refine Or.inr ⟨0, by simp, ?_, ?_, ?_,
            fun j hj => absurd hj (Nat.not_lt_zero j)⟩
          · rw [hc]; rfl
          · rw [hc]; rfl
          · rw [hc]; exact hr
        · refine Or.inr ⟨i + 1, by simpa using hi, ?_, ?_,
            lt_trans hr hlt, ?_⟩
          · simpa using hm
          · simpa using hd
          · intro j hj
            cases j with
            | zero => simpa using hlt
            | succ j => simpa using hfirst j (by omega)
    · rw [if_neg hr]
      obtain ⟨ha, hb, hc⟩ := ih bs bd
      have hrb : r.mean_cv_accuracy ≤ bs := not_lt.mp hr
      refine ⟨?_, hb, ?_⟩
      · intro x hx
        rcases List.mem_cons.mp hx with hx | hx
        · rw [hx]; exact le_trans hrb hb
        · exact ha x hx
      · rcases hc with hc | ⟨i, hi, hm, hd, hlt, hfirst⟩
        · exact Or.inl hc
        · refine Or.inr ⟨i + 1, by simpa using hi, ?_, ?_, hlt, ?_⟩
          · simpa using hm
          · simpa using hd
          · intro j hj
            cases j with
            | zero => simpa using lt_of_le_of_lt hrb hlt
            | succ j => simpa using hfirst j (by omega)

/-- C4: for every non-empty result list, `getBestParams` returns the
hyperparameter set corresponding to the result with the maximum mean
accuracy, ties broken by first occurrence in input order (the chosen index
dominates every entry and strictly exceeds every earlier entry). -/
theorem claim_C4 (cv_results : List CVResult) (h : cv_results ≠ []) :
    ∃ i, i < cv_results.length
      ∧ (∀ j, j < cv_results.length →
          (cv_results.getD j ⟨"", 0, 0, 0, 0, []⟩).mean_cv_accuracy
            ≤ (cv_results.getD i ⟨"", 0, 0, 0, 0, []⟩).mean_cv_accuracy)
      ∧ (∀ j, j < i →
          (cv_results.getD j ⟨"", 0, 0, 0, 0, []⟩).mean_cv_accuracy
            < (cv_results.getD i ⟨"", 0, 0, 0, 0, []⟩).mean_cv_accuracy)
      ∧ getBestParams cv_results
          = ⟨(cv_results.getD i ⟨"", 0, 0, 0, 0, []⟩).max_depth, 1,
              "gini_impurity"⟩ := by
  match cv_results, h with
  | r0 :: rest, _ =>
    obtain ⟨ha, hb, hc⟩ :=
      getBest_foldl_invariant (r0 :: rest) r0.mean_cv_accuracy r0.max_depth
    have hgb : getBestParams (r0 :: rest)
        = ⟨((r0 :: rest).foldl (fun best r =>
            if r.mean_cv_accuracy > best.1 then (r.mean_cv_accuracy, r.max_depth)
            else best) (r0.mean_cv_accuracy, r0.max_depth)).2, 1,
            "gini_impurity"⟩ := rfl
    rcases hc with hc | ⟨i, hi, hm, hd, _, hfirst⟩
    · refine ⟨0, by simp, ?_, fun j hj => absurd hj (Nat.not_lt_zero j), ?_⟩
      · intro j hj
        have hmem := getD_mem_of_lt (r0 :: rest) j ⟨"", 0, 0, 0, 0, []⟩ hj
        have := ha _ hmem
        rw [hc] at this
        simpa using this
      · rw [hgb, hc]
        rfl
    · refine ⟨i, hi, ?_, ?_, ?_⟩
      · intro j hj
        have hmem := getD_mem_of_lt (r0 :: rest) j ⟨"", 0, 0, 0, 0, []⟩ hj
        have := ha _ hmem
        rw [← hm] at this
        exact this
      · intro j hj
        have := hfirst j hj
        rw [← hm] at this
        exact this
      · rw [hgb, hd]

/-- Witness for C4 on a concrete one-element result list: the chosen index
is forced to be 0 and the returned set carries that result's depth. -/
theorem claim_C4_witness :
    ([(⟨"cancer", 3, 0, (9 : ℚ) / 10, 0, [1, (4 : ℚ) / 5]⟩ : CVResult)] ≠ [])
      ∧ getBestParams [(⟨"cancer", 3, 0, (9 : ℚ) / 10, 0, [1, (4 : ℚ) / 5]⟩ :
          CVResult)] = ⟨3, 1, "gini_impurity"⟩ := by
  constructor
  · simp
  · obtain ⟨i, hi, _, _, heq⟩ := claim_C4
      [(⟨"cancer", 3, 0, (9 : ℚ) / 10, 0, [1, (4 : ℚ) / 5]⟩ : CVResult)]
      (by simp)
    have hi0 : i = 0 := by simpa using hi
    subst hi0
    simpa using heq
